import Mathlib

/-!
Verification of the segment pipeline of the twitter-video-translator
repository: the translator batching logic, the TTS timing-retry loop,
the segment-count reconciliation of the synthesizer, the chunked
transcription offsets and the audio-segment merger.

Conventions of the shallow embedding:
- Python floats are modelled as exact rationals (`ℚ`); the float literal
  `1.1` is modelled as `11/10`.
- External API calls (translation, speech generation, ffprobe, ffmpeg)
  are modelled as oracle parameters describing their outcomes; the pure
  control flow around them is translated from the source.
- Console printing is modelled only where a claim refers to it (the
  missing-segment warning of the synthesizer).
-/

set_option linter.unusedVariables false

namespace TVT

/-- `SubtitleSegment` from `models/transcription.py`: timestamped text span. -/
structure SubtitleSegment where
  start_time : ℚ
  end_time : ℚ
  text : String
  confidence : Option ℚ
deriving DecidableEq, Repr

/-- Python `enumerate` followed by a per-element map: `enumMap f i [a, b] = [f i a, f (i+1) b]`. -/
def enumMap (f : ℕ → α → β) : ℕ → List α → List β
  | _, [] => []
  | i, a :: as => f i a :: enumMap f (i + 1) as

namespace Translator

/-- Outcome of one `self.model.generate_content(prompt)` call in
`translate_segments` (`services/translator.py`): either the call raises,
or it returns a response whose `.text` is the given string. -/
inductive BatchOutcome where
  | raise
  | response (text : String)

/-- Python `str.strip()` on a character list: drop whitespace from both ends.
(CPython strips all Unicode whitespace; the characters appearing in this
code path are covered by `Char.isWhitespace`.) -/
def stripChars (cs : List Char) : List Char :=
  ((cs.dropWhile Char.isWhitespace).reverse.dropWhile Char.isWhitespace).reverse

/-- Python `str.split("\n")`: accumulator-based splitting, so that
`"" ↦ [""]` and a trailing newline yields a trailing empty line,
as in CPython. -/
def splitNl : List Char → List Char → List (List Char)
  | [], acc => [acc.reverse]
  | c :: rest, acc =>
    if c = '\n' then acc.reverse :: splitNl rest [] else splitNl rest (c :: acc)

/-- Python `int(s)`: optional surrounding whitespace, optional sign, at least
one digit.  (Digit-grouping underscores accepted by CPython are not modelled;
no claim depends on them.) -/
def digitsToNat : List Char → Option ℕ
  | [] => none
  | cs =>
    if cs.all Char.isDigit then
      some (cs.foldl (fun acc c => acc * 10 + (c.toNat - 48)) 0)
    else none

def pyInt (cs : List Char) : Option ℤ :=
  match stripChars cs with
  | '-' :: rest => (digitsToNat rest).map (fun n => -(n : ℤ))
  | '+' :: rest => (digitsToNat rest).map (fun n => (n : ℤ))
  | rest => (digitsToNat rest).map (fun n => (n : ℤ))

/-- One iteration of the response-parsing loop of `translate_segments`:
a line contributes `(idx, translation)` when it is nonblank (`line.strip()`),
starts with `[`, contains `]` (`line.index("]")` raises otherwise), and the
text between the brackets parses as an int; any failing line is skipped
(the `continue` branches of the caught `ValueError`/`IndexError`). -/
def parseIndexedLine (line : List Char) : Option (ℤ × String) :=
  if stripChars line = [] then none
  else
    match line with
    | '[' :: _ =>
      match line.findIdx? (fun c => c = ']') with
      | none => none
      | some j =>
        match pyInt ((line.drop 1).take (j - 1)) with
        | none => none
        | some idx => some (idx, String.mk (stripChars (line.drop (j + 1))))
    | _ => none

/-- The `translations` dict built from `translated_text.strip().split("\n")`,
kept as the association list in line order (later lines overwrite earlier). -/
def parseTranslations (translated_text : String) : List (ℤ × String) :=
  (splitNl (stripChars translated_text.toList) []).filterMap parseIndexedLine

/-- `translations.get(idx, default)`: the value of the last line that wrote
key `idx`, if any. -/
def dictGet (translations : List (ℤ × String)) (idx : ℤ) : Option String :=
  translations.reverse.lookup idx

/-- Body of one batch of `translate_segments`: on a successful call the
response is parsed and each batch element `idx` gets
`translations.get(idx, segment.text)`; on a raising call every element
keeps its original text.  In both branches a fresh `SubtitleSegment` with
the same timing and confidence is built. -/
def translateBatch (batch : List SubtitleSegment) : BatchOutcome → List SubtitleSegment
  | BatchOutcome.response t =>
    let translations := parseTranslations t
    enumMap (fun idx seg =>
      ⟨seg.start_time, seg.end_time, (dictGet translations (idx : ℤ)).getD seg.text,
        seg.confidence⟩) 0 batch
  | BatchOutcome.raise =>
    batch.map (fun seg => ⟨seg.start_time, seg.end_time, seg.text, seg.confidence⟩)

/-- The batch size fixed in `translate_segments`. -/
def batch_size : ℕ := 10

/-- The loop `for i in range(0, len(segments), batch_size)` of
`translate_segments`, with `b` the batch ordinal: processes
`segments[i : i + 10]` then continues on the rest, appending results. -/
def translateLoop (outcomes : ℕ → BatchOutcome) (b : ℕ) (l : List SubtitleSegment) :
    List SubtitleSegment :=
  if h : l = [] then []
  else
    translateBatch (l.take batch_size) (outcomes b) ++
      translateLoop outcomes (b + 1) (l.drop batch_size)
termination_by l.length
decreasing_by
  simp only [List.length_drop, batch_size]
  have : 0 < l.length := List.length_pos.mpr h
  omega

/-- `TextTranslator.translate_segments` (`services/translator.py`), with the
per-batch outcome of the external translation call given by `outcomes`. -/
def translate_segments (outcomes : ℕ → BatchOutcome) (segments : List SubtitleSegment) :
    List SubtitleSegment :=
  translateLoop outcomes 0 segments

/-- Timing-and-confidence frame: the output segment `b` carries the same
`start_time`, `end_time` and `confidence` as the input segment `a`. -/
def SameTiming (a b : SubtitleSegment) : Prop :=
  b.start_time = a.start_time ∧ b.end_time = a.end_time ∧ b.confidence = a.confidence

end Translator

namespace TTSPrompts

/-- Outcome of the `ffprobe` measurement inside `get_audio_duration`
(`services/tts_with_prompts.py`): exit code 0 with a parsed duration,
a nonzero exit code, or a raised exception (subprocess failure, JSON or
float parse error). -/
inductive ProbeOutcome where
  | ok (duration : ℚ)
  | errExit
  | exn
deriving DecidableEq, Repr

/-- `get_audio_duration`: the parsed duration on success, `0.0` on a nonzero
`ffprobe` exit code, and `0.0` again in the `except` handler.  Totality of
the source function (every path returns a float) is mirrored by this being
a total function on `ProbeOutcome`. -/
def get_audio_duration : ProbeOutcome → ℚ
  | ProbeOutcome.ok d => d
  | ProbeOutcome.errExit => 0
  | ProbeOutcome.exn => 0

/-- The `while attempt < max_attempts` loop of `generate_speech_with_timing`.
`gen a s` is the outcome of the speech-generation call of attempt `a`
(1-based) under speed factor `s`: `none` when generation failed or produced
no file, `some probe` when a clip was produced and `probe` is the `ffprobe`
measurement of it.  Returns the `(output_path, audio_duration)` pair —
`some d` standing for `(output_path, d)` and `none` for `(None, 0.0)` —
paired with the number of generation attempts performed (an observer added
for the attempt-budget claim; the source logs but does not return it). -/
def timingGo (gen : ℕ → ℚ → Option ProbeOutcome) (segment_duration : ℚ)
    (max_attempts : ℕ) (attempt : ℕ) (speed_factor : ℚ) : Option ℚ × ℕ :=
  if h : attempt < max_attempts then
    match gen (attempt + 1) speed_factor with
    | some probe =>
      let audio_duration := get_audio_duration probe
      if audio_duration > segment_duration * (11 / 10) then
        if attempt + 1 < max_attempts then
          let r := timingGo gen segment_duration max_attempts (attempt + 1)
            (min 2 (speed_factor * (audio_duration / segment_duration)))
          (r.1, r.2 + 1)
        else
          (some audio_duration, 1)
      else
        (some audio_duration, 1)
    | none =>
      let r := timingGo gen segment_duration max_attempts (attempt + 1) speed_factor
      (r.1, r.2 + 1)
  else
    (none, 0)
termination_by max_attempts - attempt
decreasing_by all_goals omega

/-- `generate_speech_with_timing` for a segment whose window is
`segment_duration = end_time - start_time`: the loop starts at
`attempt = 0`, `speed_factor = 1.0`; the source's default budget is
`max_attempts = 3`. -/
def generate_speech_with_timing (gen : ℕ → ℚ → Option ProbeOutcome)
    (segment_duration : ℚ) (max_attempts : ℕ) : Option ℚ × ℕ :=
  timingGo gen segment_duration max_attempts 0 1

end TTSPrompts

namespace Transcriber

/-- One raw segment of a Whisper `verbose_json` response: the dict keys
`"start"`, `"end"`, `"text"`, and `segment.get("confidence")`. -/
structure RawSeg where
  start : ℚ
  stop : ℚ
  text : String
  confidence : Option ℚ
deriving DecidableEq, Repr

/-- One chunk's transcription response (`services/transcriber.py`):
`.text`, `.language` and `.segments`. -/
structure ChunkTranscription where
  text : String
  language : String
  segments : List RawSeg
deriving DecidableEq, Repr

/-- `TranscriptionResult` from `models/transcription.py` (the fields the
claims concern). -/
structure TranscriptionResult where
  full_text : String
  segments : List SubtitleSegment
  language : String
  duration : ℚ
deriving DecidableEq, Repr

/-- Number of chunk files produced by `split_audio`: one chunk when the
probed duration is within `max_duration`, else
`int(total_duration / max_duration) + 1` chunks of `max_duration` seconds
starting at `i * max_duration`.  The source calls it with the default
`max_duration = 300`. -/
def split_audio_chunks (total_duration : ℚ) (max_duration : ℚ) : ℕ :=
  if total_duration ≤ max_duration then 1
  else ((total_duration / max_duration).floor).toNat + 1

/-- Accumulator of the per-chunk loop of `transcribe_audio`. -/
structure TranscribeAcc where
  all_segments : List SubtitleSegment
  detected_language : Option String
  full_text : List String
  total_duration : ℚ

/-- The inner `for segment in transcription.segments` loop: each raw segment
is offset by `time_offset`, its text stripped, and the running maximum
`total_duration` updated. -/
def addChunkSegments (time_offset : ℚ) (raws : List RawSeg)
    (acc : List SubtitleSegment × ℚ) : List SubtitleSegment × ℚ :=
  raws.foldl (fun p raw =>
    let sub : SubtitleSegment :=
      ⟨raw.start + time_offset, raw.stop + time_offset,
        String.mk (Translator.stripChars raw.text.toList), raw.confidence⟩
    (p.1 ++ [sub], if sub.end_time > p.2 then sub.end_time else p.2)) acc

/-- The `for i, segment_path in enumerate(audio_segments)` loop of
`transcribe_audio`: chunk `i`'s ASR response is appended with time offset
`i * 300` (the offset is the literal `300` in the source), the detected
language is taken from the first chunk, and the chunk texts collected. -/
def transcribeChunksLoop (asr : ℕ → ChunkTranscription) (n : ℕ) : TranscribeAcc :=
  (List.range n).foldl (fun acc i =>
    let tr := asr i
    let p := addChunkSegments ((i : ℚ) * 300) tr.segments (acc.all_segments, acc.total_duration)
    ⟨p.1, some (acc.detected_language.getD tr.language),
      acc.full_text ++ [tr.text], p.2⟩)
    ⟨[], none, [], 0⟩

/-- `AudioTranscriber.transcribe_audio`: when the file exceeds 20MB the
audio is split via `split_audio` (default 300s chunks), otherwise a single
chunk is transcribed; `asr i` is the response of the ASR call on chunk `i`. -/
def transcribe_audio (file_size_mb : ℚ) (total_duration : ℚ)
    (asr : ℕ → ChunkTranscription) : TranscriptionResult :=
  let n := if file_size_mb > 20 then split_audio_chunks total_duration 300 else 1
  let acc := transcribeChunksLoop asr n
  ⟨String.intercalate " " acc.full_text, acc.all_segments,
    acc.detected_language.getD "unknown", acc.total_duration⟩

/-- The offset image of one chunk's raw segments. -/
def offsetChunk (i : ℕ) (raws : List RawSeg) : List SubtitleSegment :=
  raws.map (fun raw =>
    ⟨raw.start + (i : ℚ) * 300, raw.stop + (i : ℚ) * 300,
      String.mk (Translator.stripChars raw.text.toList), raw.confidence⟩)

end Transcriber

namespace Composer

/-- One entry of the `segments` argument of `merge_audio_segments`
(`services/video_composer.py`): `has_audio` models
`"audio_path" in seg and seg["audio_path"].exists()`; `start` and `stop`
are the dict values under the keys `"start"` and `"end"`. -/
structure MergeSeg where
  has_audio : Bool
  start : ℚ
  stop : ℚ
deriving DecidableEq, Repr

/-- Result of `merge_audio_segments`: the returned `output_path` together
with the `-t total_duration` bound handed to the mixing command, or a
raised error. -/
inductive MergeResult where
  | error (msg : String)
  | ok (output_path : String) (total_duration : ℚ)
deriving DecidableEq, Repr

/-- `VideoComposer.merge_audio_segments`: filters the segments that carry an
existing audio file, raises `ValueError` when none remain, computes
`total_duration = max(seg["end"] for seg in segments)` over ALL input
segments, and runs the external mix command (whose success is the oracle
`mix_ok`; a nonzero exit re-raises).  The `max` is reached only with at
least one usable clip, hence a nonempty `segments`; the `getD 0` default is
unreachable there. -/
def merge_audio_segments (mix_ok : Bool) (segments : List MergeSeg)
    (output_path : String) : MergeResult :=
  let audio_segments := segments.filter (fun s => s.has_audio)
  if audio_segments = [] then
    MergeResult.error "no audio files found"
  else
    let total_duration := ((segments.map (fun s => s.stop)).max?).getD 0
    if mix_ok then MergeResult.ok output_path total_duration
    else MergeResult.error "mix process failed"

end Composer

namespace TTS

/-- One entry of `segments_data` in `generate_speech_for_segments`
(`services/tts.py`): timing, chosen text, and the audio path modelled by its
segment index (the path is `temp_dir / f"segment_{idx:04d}.wav"`; the
reconciliation step recovers the index from the path stem, and the
`int(path.stem.split("_")[-1])` parse round-trips the format exactly, as
the repository's own path-extraction test exercises). -/
structure SegData where
  start_time : ℚ
  end_time : ℚ
  text : String
  audio_idx : ℕ
deriving DecidableEq, Repr

/-- The fields of the returned `TTSResult` that the claims concern.
`audio_file = none` models the placeholder `config.temp_dir / "empty.wav"`
picked when `audio_files` is empty; `audio_files` is the
`metadata = {"audio_files": [...]}` list, by path index; `missing_report`
is the final console warning enumerating the indices that could not be
generated (`none` when that warning is not printed). -/
structure TTSRunResult where
  audio_file : Option ℕ
  duration : ℚ
  text : String
  segments : List SegData
  audio_files : List ℕ
  missing_report : Option (List ℕ)
deriving DecidableEq, Repr

/-- Text chosen for segment `idx`:
`translated_texts[idx] if translated_texts and idx < len(translated_texts)
else segment.text` (Python truthiness: `None` and `[]` both fall back). -/
def textFor (tt : Option (List String)) (idx : ℕ) (seg : SubtitleSegment) : String :=
  match tt with
  | none => seg.text
  | some ts => if ts ≠ [] ∧ idx < ts.length then ts.getD idx seg.text else seg.text

/-- `expected_count = len(translated_texts) if translated_texts else
len(segments)`. -/
def expectedCount (segments : List SubtitleSegment) (tt : Option (List String)) : ℕ :=
  match tt with
  | none => segments.length
  | some ts => if ts ≠ [] then ts.length else segments.length

/-- First pass of `generate_speech_for_segments`: one generation task per
segment in index order; `gen0 idx = true` when the awaited task returned a
path without raising.  A successful task appends its entry to
`segments_data` (its path, recovered below as `.map SegData.audio_idx`,
goes to `audio_files` in the same step). -/
def firstPass (tt : Option (List String)) (gen0 : ℕ → Bool) :
    ℕ → List SubtitleSegment → List SegData
  | _, [] => []
  | idx, seg :: rest =>
    if gen0 idx then
      ⟨seg.start_time, seg.end_time, textFor tt idx seg, idx⟩ ::
        firstPass tt gen0 (idx + 1) rest
    else firstPass tt gen0 (idx + 1) rest

/-- `missing_indices = [idx for idx in range(expected_count)
if idx not in generated_indices]`. -/
def missingOf (expected : ℕ) (data : List SegData) : List ℕ :=
  (List.range expected).filter (fun idx => decide (¬ idx ∈ data.map SegData.audio_idx))

/-- One retry pass (`retry_count = p`): only missing indices
`idx < len(segments)` get a regeneration task; `gen p idx = true` when the
awaited task returned a path and the file exists.  The indices of the new
entries are the `newly_generated` list of the source. -/
def retryPass (segments : List SubtitleSegment) (tt : Option (List String))
    (gen : ℕ → ℕ → Bool) (p : ℕ) (missing : List ℕ) : List SegData :=
  (missing.filter (fun idx => decide (idx < segments.length))).filterMap (fun idx =>
    if gen p idx then
      some ⟨(segments.getD idx ⟨0, 0, "", none⟩).start_time,
        (segments.getD idx ⟨0, 0, "", none⟩).end_time,
        textFor tt idx (segments.getD idx ⟨0, 0, "", none⟩), idx⟩
    else none)

/-- The `while missing_indices and retry_count < max_retries` loop of
`generate_speech_for_segments` (source: `max_retries = 2`): each pass
regenerates the missing indices, appends the successes to `segments_data`,
and removes the newly generated indices from the missing list.  Returns the
final `(segments_data, missing_indices)`. -/
def retryLoop (segments : List SubtitleSegment) (tt : Option (List String))
    (gen : ℕ → ℕ → Bool) (max_retries : ℕ) (rc : ℕ) (missing : List ℕ)
    (data : List SegData) : List SegData × List ℕ :=
  if h : missing ≠ [] ∧ rc < max_retries then
    let p := rc + 1
    let newData := retryPass segments tt gen p missing
    let newly := newData.map SegData.audio_idx
    retryLoop segments tt gen max_retries p
      (missing.filter (fun idx => decide (¬ idx ∈ newly))) (data ++ newData)
  else (data, missing)
termination_by max_retries - rc
decreasing_by
  obtain ⟨h1, h2⟩ := h
  omega

/-- The reconciliation part of `generate_speech_for_segments`: the first
pass, then — when the produced count differs from `expected_count` and some
indices are missing — the bounded retry loop (`max_retries = 2`).  Returns
the final `(segments_data, missing_indices)`. -/
def reconcile (segments : List SubtitleSegment) (tt : Option (List String))
    (gen : ℕ → ℕ → Bool) : List SegData × List ℕ :=
  let expected := expectedCount segments tt
  let data0 := firstPass tt (gen 0) 0 segments
  if data0.length ≠ expected then
    let m0 := missingOf expected data0
    if m0 ≠ [] then retryLoop segments tt gen 2 0 m0 data0 else (data0, m0)
  else (data0, [])

/-- `TextToSpeech.generate_speech_for_segments` (`services/tts.py`), with
the outcome of the generation task for segment `idx` on pass `p` given by
`gen p idx` (`p = 0` is the first pass, `p = 1, 2` the retry passes).
Style analysis and the per-segment awaiting are pure bookkeeping around the
oracle and do not affect the fields modelled here. -/
def runSynthesis (segments : List SubtitleSegment) (tt : Option (List String))
    (gen : ℕ → ℕ → Bool) : TTSRunResult :=
  let dm := reconcile segments tt gen
  let afiles := dm.1.map SegData.audio_idx
  ⟨afiles.head?,
    (dm.1.map SegData.end_time).foldl max 0,
    String.intercalate " " (enumMap (fun idx seg => textFor tt idx seg) 0 segments),
    dm.1,
    afiles,
    if dm.2 ≠ [] then some dm.2 else none⟩

/-- The body of `generate_speech_for_segments` catches every per-segment
exception and always reaches the final `return TTSResult(...)`: the only
result channel is a normal return. -/
def generate_speech_for_segments (segments : List SubtitleSegment)
    (tt : Option (List String)) (gen : ℕ → ℕ → Bool) : Except String TTSRunResult :=
  Except.ok (runSynthesis segments tt gen)

/-- Concrete example inputs: one segment, one translated text, and a
generation oracle that fails on every pass, as well as one that succeeds
only on the first retry pass. -/
def exSegs : List SubtitleSegment := [⟨0, 2, "hello", none⟩]

def exTexts : Option (List String) := some ["t"]

def genFail : ℕ → ℕ → Bool := fun _ _ => false

def genRetry : ℕ → ℕ → Bool := fun p _ => p == 1

end TTS

end TVT

namespace TVT

theorem enumMap_length (f : ℕ → α → β) : ∀ (i : ℕ) (l : List α), (enumMap f i l).length = l.length
  | _, [] => rfl
  | i, _ :: as => congrArg Nat.succ (enumMap_length f (i + 1) as)

namespace Translator

theorem translateLoop_nil (outcomes : ℕ → BatchOutcome) (b : ℕ) :
    translateLoop outcomes b [] = [] := by
  rw [translateLoop.eq_def]
  simp

theorem translateLoop_cons (outcomes : ℕ → BatchOutcome) (b : ℕ)
    (l : List SubtitleSegment) (h : l ≠ []) :
    translateLoop outcomes b l =
      translateBatch (l.take batch_size) (outcomes b) ++
        translateLoop outcomes (b + 1) (l.drop batch_size) := by
  rw [translateLoop.eq_def, dif_neg h]

theorem translateBatch_length (batch : List SubtitleSegment) (o : BatchOutcome) :
    (translateBatch batch o).length = batch.length := by
  cases o with
  | response t => simp [translateBatch, enumMap_length]
  | raise => simp [translateBatch]

theorem translateLoop_length (outcomes : ℕ → BatchOutcome) :
    ∀ (n : ℕ) (b : ℕ) (l : List SubtitleSegment), l.length ≤ n →
      (translateLoop outcomes b l).length = l.length
  | 0, b, l, h => by
    have : l = [] := List.eq_nil_of_length_eq_zero (Nat.le_zero.mp h)
    subst this
    rw [translateLoop_nil]
  | n + 1, b, l, h => by
    by_cases hl : l = []
    · subst hl
      rw [translateLoop_nil]
    · have hlen : 0 < l.length := List.length_pos.mpr hl
      have hdrop : (l.drop batch_size).length ≤ n := by
        simp only [List.length_drop, batch_size]
        omega
      rw [translateLoop_cons outcomes b l hl]
      simp only [List.length_append, translateBatch_length,
        translateLoop_length outcomes n (b + 1) (l.drop batch_size) hdrop]
      simp only [List.length_take, List.length_drop]
      omega

theorem enumMap_sameTiming (f : ℕ → SubtitleSegment → SubtitleSegment)
    (hf : ∀ i a, SameTiming a (f i a)) :
    ∀ (i : ℕ) (l : List SubtitleSegment), List.Forall₂ SameTiming l (enumMap f i l)
  | _, [] => List.Forall₂.nil
  | i, a :: as => List.Forall₂.cons (hf i a) (enumMap_sameTiming f hf (i + 1) as)

theorem translateBatch_sameTiming (batch : List SubtitleSegment) (o : BatchOutcome) :
    List.Forall₂ SameTiming batch (translateBatch batch o) := by
  cases o with
  | response t =>
    simp only [translateBatch]
    exact enumMap_sameTiming
      (fun idx seg =>
        ⟨seg.start_time, seg.end_time,
          (dictGet (parseTranslations t) (idx : ℤ)).getD seg.text, seg.confidence⟩)
      (fun i a => ⟨rfl, rfl, rfl⟩) 0 batch
  | raise =>
    simp only [translateBatch]
    induction batch with
    | nil => exact List.Forall₂.nil
    | cons a as ih => exact List.Forall₂.cons ⟨rfl, rfl, rfl⟩ ih

theorem translateLoop_sameTiming (outcomes : ℕ → BatchOutcome) :
    ∀ (n : ℕ) (b : ℕ) (l : List SubtitleSegment), l.length ≤ n →
      List.Forall₂ SameTiming l (translateLoop outcomes b l)
  | 0, b, l, h => by
    have : l = [] := List.eq_nil_of_length_eq_zero (Nat.le_zero.mp h)
    subst this
    rw [translateLoop_nil]
    exact List.Forall₂.nil
  | n + 1, b, l, h => by
    by_cases hl : l = []
    · subst hl
      rw [translateLoop_nil]
      exact List.Forall₂.nil
    · have hlen : 0 < l.length := List.length_pos.mpr hl
      have hdrop : (l.drop batch_size).length ≤ n := by
        simp only [List.length_drop, batch_size]
        omega
      rw [translateLoop_cons outcomes b l hl]
      have h1 := translateBatch_sameTiming (l.take batch_size) (outcomes b)
      have h2 := translateLoop_sameTiming outcomes n (b + 1) (l.drop batch_size) hdrop
      have h3 : List.Forall₂ SameTiming (List.take batch_size l ++ List.drop batch_size l)
          (translateBatch (List.take batch_size l) (outcomes b) ++
            translateLoop outcomes (b + 1) (List.drop batch_size l)) :=
        List.rel_append h1 h2
      rwa [List.take_append_drop] at h3

/-- `translateBatch` with `BatchOutcome.raise` rebuilds every segment with
identical fields. -/
theorem translateBatch_raise (batch : List SubtitleSegment) :
    translateBatch batch BatchOutcome.raise = batch := by
  simp only [translateBatch]
  exact List.map_id' batch

/-- Indexing law of a successfully translated batch: element `i` keeps its
timing and gets `translations.get(i, original_text)`. -/
theorem translateBatch_response_getElem (t : String) :
    ∀ (batch : List SubtitleSegment) (j i : ℕ),
      (enumMap (fun idx seg =>
          (⟨seg.start_time, seg.end_time,
            (dictGet (parseTranslations t) (idx : ℤ)).getD seg.text,
            seg.confidence⟩ : SubtitleSegment)) j batch)[i]? =
        (batch[i]?).map (fun seg =>
          ⟨seg.start_time, seg.end_time,
            (dictGet (parseTranslations t) ((j + i : ℕ) : ℤ)).getD seg.text,
            seg.confidence⟩)
  | [], j, i => by simp [enumMap]
  | a :: as, j, 0 => by simp [enumMap]
  | a :: as, j, i + 1 => by
    have ih := translateBatch_response_getElem t as (j + 1) i
    simpa [enumMap, Nat.add_assoc, Nat.add_comm 1 i] using ih

end Translator

namespace TTSPrompts

theorem timingGo_stop (gen : ℕ → ℚ → Option ProbeOutcome) (segd : ℚ)
    (m a : ℕ) (s : ℚ) (h : ¬ a < m) : timingGo gen segd m a s = (none, 0) := by
  rw [timingGo.eq_def, dif_neg h]

theorem timingGo_attempts_le (gen : ℕ → ℚ → Option ProbeOutcome) (segd : ℚ) :
    ∀ (k : ℕ) (m a : ℕ) (s : ℚ), m - a ≤ k → (timingGo gen segd m a s).2 ≤ m - a
  | 0, m, a, s, hk => by
    have h : ¬ a < m := by omega
    rw [timingGo_stop gen segd m a s h]
    simp
  | k + 1, m, a, s, hk => by
    rw [timingGo.eq_def]
    by_cases h : a < m
    · rw [dif_pos h]
      have hrec : ∀ (s' : ℚ), (timingGo gen segd m (a + 1) s').2 ≤ m - (a + 1) :=
        fun s' => timingGo_attempts_le gen segd k m (a + 1) s' (by omega)
      cases hg : gen (a + 1) s with
      | none =>
        simpa using Nat.le_trans (Nat.add_le_add_right (hrec s) 1) (by omega)
      | some probe =>
        simp only []
        by_cases hd : get_audio_duration probe > segd * (11 / 10)
        · rw [if_pos hd]
          by_cases hlast : a + 1 < m
          · rw [if_pos hlast]
            simpa using Nat.le_trans (Nat.add_le_add_right (hrec _) 1) (by omega)
          · rw [if_neg hlast]
            simpa using by omega
        · rw [if_neg hd]
          simpa using by omega
    · rw [dif_neg h]
      simp

end TTSPrompts

namespace Transcriber

theorem addChunkSegments_fst (time_offset : ℚ) :
    ∀ (raws : List RawSeg) (s : List SubtitleSegment) (d : ℚ),
      (addChunkSegments time_offset raws (s, d)).1 =
        s ++ raws.map (fun raw =>
          ⟨raw.start + time_offset, raw.stop + time_offset,
            String.mk (Translator.stripChars raw.text.toList), raw.confidence⟩)
  | [], s, d => by simp [addChunkSegments]
  | raw :: raws, s, d => by
    simp only [addChunkSegments, List.foldl_cons, List.map_cons]
    have ih := addChunkSegments_fst time_offset raws
      (s ++ [⟨raw.start + time_offset, raw.stop + time_offset,
        String.mk (Translator.stripChars raw.text.toList), raw.confidence⟩])
      (if raw.stop + time_offset > d then raw.stop + time_offset else d)
    simpa [addChunkSegments, List.append_assoc] using ih

theorem transcribeChunksLoop_segments (asr : ℕ → ChunkTranscription) :
    ∀ n : ℕ, (transcribeChunksLoop asr n).all_segments =
      ((List.range n).map (fun i => offsetChunk i (asr i).segments)).flatten := by
  have key : ∀ (n : ℕ) (acc : TranscribeAcc),
      ((List.range n).foldl (fun acc i =>
        let tr := asr i
        let p := addChunkSegments ((i : ℚ) * 300) tr.segments
          (acc.all_segments, acc.total_duration)
        (⟨p.1, some (acc.detected_language.getD tr.language),
          acc.full_text ++ [tr.text], p.2⟩ : TranscribeAcc)) acc).all_segments =
      acc.all_segments ++
        ((List.range n).map (fun i => offsetChunk i (asr i).segments)).flatten := by
    intro n
    induction n with
    | zero => intro acc; simp
    | succ n ih =>
      intro acc
      rw [List.range_succ]
      simp only [List.foldl_append, List.foldl_cons, List.foldl_nil,
        List.map_append, List.map_cons, List.map_nil, List.flatten_append, ih]
      simp [addChunkSegments_fst, offsetChunk, List.append_assoc]
  intro n
  simpa using key n ⟨[], none, [], 0⟩

end Transcriber

namespace TTS

theorem firstPass_mem (tt : Option (List String)) (gen0 : ℕ → Bool) :
    ∀ (l : List SubtitleSegment) (i j : ℕ),
      j ∈ (firstPass tt gen0 i l).map SegData.audio_idx ↔
        (i ≤ j ∧ j < i + l.length ∧ gen0 j = true)
  | [], i, j => by simp [firstPass]; omega
  | seg :: rest, i, j => by
    have ih := firstPass_mem tt gen0 rest (i + 1) j
    by_cases hg : gen0 i
    · simp only [firstPass, if_pos hg, List.map_cons, List.mem_cons, ih, List.length_cons]
      constructor
      · rintro (rfl | ⟨h1, h2, h3⟩)
        · exact ⟨Nat.le_refl _, by omega, hg⟩
        · exact ⟨by omega, by omega, h3⟩
      · rintro ⟨h1, h2, h3⟩
        by_cases hij : j = i
        · exact Or.inl hij
        · exact Or.inr ⟨by omega, by omega, h3⟩
    · simp only [firstPass, if_neg hg, ih, List.length_cons]
      constructor
      · rintro ⟨h1, h2, h3⟩
        exact ⟨by omega, by omega, h3⟩
      · rintro ⟨h1, h2, h3⟩
        have hij : j ≠ i := by
          rintro rfl
          exact hg (by simpa using h3)
        exact ⟨by omega, by omega, h3⟩

theorem firstPass_length_le (tt : Option (List String)) (gen0 : ℕ → Bool) :
    ∀ (l : List SubtitleSegment) (i : ℕ), (firstPass tt gen0 i l).length ≤ l.length
  | [], i => Nat.le_refl _
  | seg :: rest, i => by
    by_cases hg : gen0 i
    · simpa [firstPass, if_pos hg] using firstPass_length_le tt gen0 rest (i + 1)
    · simp only [firstPass, if_neg hg, List.length_cons]
      exact Nat.le_trans (firstPass_length_le tt gen0 rest (i + 1)) (Nat.le_succ _)

theorem firstPass_length_eq_iff (tt : Option (List String)) (gen0 : ℕ → Bool) :
    ∀ (l : List SubtitleSegment) (i : ℕ),
      (firstPass tt gen0 i l).length = l.length ↔ ∀ k < l.length, gen0 (i + k) = true
  | [], i => by simp [firstPass]
  | seg :: rest, i => by
    have ih := firstPass_length_eq_iff tt gen0 rest (i + 1)
    by_cases hg : gen0 i
    · simp only [firstPass, if_pos hg, List.length_cons, Nat.succ.injEq, ih]
      constructor
      · intro h k hk
        cases k with
        | zero => simpa using hg
        | succ k' =>
          have := h k' (by omega)
          simpa [Nat.add_comm, Nat.add_assoc, Nat.add_left_comm] using this
      · intro h k hk
        have := h (k + 1) (by omega)
        simpa [Nat.add_comm, Nat.add_assoc, Nat.add_left_comm] using this
    · simp only [firstPass, if_neg hg, List.length_cons]
      constructor
      · intro h
        exact absurd h (by
          have := firstPass_length_le tt gen0 rest (i + 1)
          omega)
      · intro h
        exact absurd (by simpa using h 0 (by omega)) hg

theorem retryPass_idx (segments : List SubtitleSegment) (tt : Option (List String))
    (gen : ℕ → ℕ → Bool) (p : ℕ) :
    ∀ missing : List ℕ,
      (retryPass segments tt gen p missing).map SegData.audio_idx =
        (missing.filter (fun idx => decide (idx < segments.length))).filter
          (fun idx => gen p idx)
  | [] => rfl
  | idx :: rest => by
    have ih := retryPass_idx segments tt gen p rest
    by_cases hlt : idx < segments.length
    · by_cases hg : gen p idx
      · simp [retryPass, hlt, hg] at ih ⊢
        exact ih
      · simp [retryPass, hlt, hg] at ih ⊢
        exact ih
    · simp [retryPass, hlt] at ih ⊢
      exact ih

theorem retryLoop_stop (segments : List SubtitleSegment) (tt : Option (List String))
    (gen : ℕ → ℕ → Bool) (mr rc : ℕ) (missing : List ℕ) (data : List SegData)
    (h : missing = [] ∨ mr ≤ rc) :
    retryLoop segments tt gen mr rc missing data = (data, missing) := by
  rw [retryLoop.eq_def, dif_neg]
  rintro ⟨h1, h2⟩
  rcases h with h | h
  · exact h1 h
  · omega

theorem retryLoop_step (segments : List SubtitleSegment) (tt : Option (List String))
    (gen : ℕ → ℕ → Bool) (mr rc : ℕ) (missing : List ℕ) (data : List SegData)
    (h1 : missing ≠ []) (h2 : rc < mr) :
    retryLoop segments tt gen mr rc missing data =
      retryLoop segments tt gen mr (rc + 1)
        (missing.filter (fun idx => decide
          (¬ idx ∈ (retryPass segments tt gen (rc + 1) missing).map SegData.audio_idx)))
        (data ++ retryPass segments tt gen (rc + 1) missing) := by
  rw [retryLoop.eq_def, dif_pos ⟨h1, h2⟩]

theorem retryPass_idx_lt (segments : List SubtitleSegment) (tt : Option (List String))
    (gen : ℕ → ℕ → Bool) (p : ℕ) (missing : List ℕ) :
    ∀ j ∈ (retryPass segments tt gen p missing).map SegData.audio_idx,
      j < segments.length := by
  intro j hj
  rw [retryPass_idx] at hj
  have hj1 := List.mem_filter.mp hj
  have hj2 := List.mem_filter.mp hj1.1
  simpa using hj2.2

theorem retryLoop_idx_lt (segments : List SubtitleSegment) (tt : Option (List String))
    (gen : ℕ → ℕ → Bool) :
    ∀ (k mr rc : ℕ) (missing : List ℕ) (data : List SegData),
      mr - rc ≤ k →
      (∀ j ∈ data.map SegData.audio_idx, j < segments.length) →
      ∀ j ∈ ((retryLoop segments tt gen mr rc missing data).1).map SegData.audio_idx,
        j < segments.length
  | 0, mr, rc, missing, data, hk, hdata => by
    rw [retryLoop_stop segments tt gen mr rc missing data (Or.inr (by omega))]
    exact hdata
  | k + 1, mr, rc, missing, data, hk, hdata => by
    by_cases hc : missing ≠ [] ∧ rc < mr
    · rw [retryLoop_step segments tt gen mr rc missing data hc.1 hc.2]
      refine retryLoop_idx_lt segments tt gen k mr (rc + 1) _ _ (by omega) ?_
      intro j hj
      rw [List.map_append, List.mem_append] at hj
      rcases hj with hj | hj
      · exact hdata j hj
      · exact retryPass_idx_lt segments tt gen (rc + 1) missing j hj
    · rw [retryLoop.eq_def, dif_neg hc]
      exact hdata

theorem firstPass_idx_lt (tt : Option (List String)) (gen0 : ℕ → Bool)
    (segments : List SubtitleSegment) :
    ∀ j ∈ (firstPass tt gen0 0 segments).map SegData.audio_idx, j < segments.length := by
  intro j hj
  have := (firstPass_mem tt gen0 segments 0 j).mp hj
  omega

/-- Every audio index in the reconciled data is an input segment index
(for every `translated_texts` argument). -/
theorem reconcile_idx_lt (segments : List SubtitleSegment) (tt : Option (List String))
    (gen : ℕ → ℕ → Bool) :
    ∀ j ∈ ((reconcile segments tt gen).1).map SegData.audio_idx, j < segments.length := by
  intro j hj
  rw [reconcile] at hj
  by_cases h1 : (firstPass tt (gen 0) 0 segments).length ≠ expectedCount segments tt
  · rw [if_pos h1] at hj
    by_cases h2 : missingOf (expectedCount segments tt) (firstPass tt (gen 0) 0 segments) ≠ []
    · rw [if_pos h2] at hj
      exact retryLoop_idx_lt segments tt gen 2 2 0 _ _ (by omega)
        (firstPass_idx_lt tt (gen 0) segments) j hj
    · rw [if_neg h2] at hj
      exact firstPass_idx_lt tt (gen 0) segments j hj
  · rw [if_neg h1] at hj
    exact firstPass_idx_lt tt (gen 0) segments j hj

/-- One retry pass over a missing list whose indices are all in range:
the newly generated indices are the missing ones whose generation
succeeded, and the updated missing list keeps exactly those whose
generation failed. -/
theorem retryPass_shape (segments : List SubtitleSegment) (tt : Option (List String))
    (gen : ℕ → ℕ → Bool) (p : ℕ) (M : List ℕ)
    (hM : ∀ idx ∈ M, idx < segments.length) :
    (retryPass segments tt gen p M).map SegData.audio_idx =
      M.filter (fun idx => gen p idx) ∧
    M.filter (fun idx => decide
        (¬ idx ∈ (retryPass segments tt gen p M).map SegData.audio_idx)) =
      M.filter (fun idx => !gen p idx) := by
  have hinner : M.filter (fun idx => decide (idx < segments.length)) = M :=
    List.filter_eq_self.mpr (fun idx hidx => by simpa using hM idx hidx)
  have hnew : (retryPass segments tt gen p M).map SegData.audio_idx =
      M.filter (fun idx => gen p idx) := by
    rw [retryPass_idx, hinner]
  refine ⟨hnew, ?_⟩
  apply List.filter_congr
  intro idx hidx
  rw [hnew]
  cases hg : gen p idx <;> simp [List.mem_filter, hidx, hg]

/-- Master characterization of the reconciliation under a consistent
`expected_count` (translated texts aligned with the segments, the pipeline
situation): an index is produced iff one of the three passes succeeded for
it, and the final missing list is exactly the list of indices all of whose
passes failed. -/
theorem reconcile_char (segments : List SubtitleSegment) (tt : Option (List String))
    (gen : ℕ → ℕ → Bool) (h : expectedCount segments tt = segments.length) :
    (∀ idx, idx < segments.length →
      (idx ∈ ((reconcile segments tt gen).1).map SegData.audio_idx ↔
        (gen 0 idx || gen 1 idx || gen 2 idx) = true)) ∧
    (reconcile segments tt gen).2 =
      (List.range segments.length).filter
        (fun idx => !(gen 0 idx || gen 1 idx || gen 2 idx)) := by
  set d0 := firstPass tt (gen 0) 0 segments with hd0
  set m0 := missingOf (expectedCount segments tt) d0 with hm0def
  have hmem0 : ∀ j, j ∈ d0.map SegData.audio_idx ↔
      (j < segments.length ∧ gen 0 j = true) := by
    intro j
    have := firstPass_mem tt (gen 0) segments 0 j
    simpa [hd0] using this
  have hm0 : m0 = (List.range segments.length).filter (fun idx => !(gen 0 idx)) := by
    rw [hm0def, missingOf, h]
    apply List.filter_congr
    intro idx hidx
    have hidxn : idx < segments.length := List.mem_range.mp hidx
    cases hg0 : gen 0 idx <;> simp [hmem0, hidxn, hg0]
  by_cases hlen : d0.length ≠ expectedCount segments tt
  · by_cases hm0e : m0 ≠ []
    · -- some indices are missing after the first pass: the retry loop runs
      have hrec : reconcile segments tt gen = retryLoop segments tt gen 2 0 m0 d0 := by
        rw [reconcile]
        rw [← hd0, ← hm0def, if_pos hlen, if_pos hm0e]
      have hm0sub : ∀ idx ∈ m0, idx < segments.length := by
        intro idx hidx
        rw [hm0] at hidx
        exact List.mem_range.mp (List.mem_filter.mp hidx).1
      obtain ⟨hnewly1, hmiss1⟩ := retryPass_shape segments tt gen 1 m0 hm0sub
      have hM1 : m0.filter (fun idx => !gen 1 idx) =
          (List.range segments.length).filter
            (fun idx => (!gen 0 idx && !gen 1 idx)) := by
        rw [hm0, List.filter_filter]
        apply List.filter_congr
        intro idx _
        cases hg0 : gen 0 idx <;> cases hg1 : gen 1 idx <;> simp
      have hstep1 : retryLoop segments tt gen 2 0 m0 d0 =
          retryLoop segments tt gen 2 1
            ((List.range segments.length).filter (fun idx => (!gen 0 idx && !gen 1 idx)))
            (d0 ++ retryPass segments tt gen 1 m0) := by
        rw [retryLoop_step segments tt gen 2 0 m0 d0 hm0e (by omega), hmiss1, hM1]
      set M1 := (List.range segments.length).filter
        (fun idx => (!gen 0 idx && !gen 1 idx)) with hM1def
      have hM1sub : ∀ idx ∈ M1, idx < segments.length := by
        intro idx hidx
        rw [hM1def] at hidx
        exact List.mem_range.mp (List.mem_filter.mp hidx).1
      by_cases hM1e : M1 ≠ []
      · -- still missing after pass 1: pass 2 runs, then the loop stops
        obtain ⟨hnewly2, hmiss2⟩ := retryPass_shape segments tt gen 2 M1 hM1sub
        have hM2 : M1.filter (fun idx => !gen 2 idx) =
            (List.range segments.length).filter
              (fun idx => !(gen 0 idx || gen 1 idx || gen 2 idx)) := by
          rw [hM1def, List.filter_filter]
          apply List.filter_congr
          intro idx _
          cases hg0 : gen 0 idx <;> cases hg1 : gen 1 idx <;> cases hg2 : gen 2 idx <;> simp
        have hstep2 : retryLoop segments tt gen 2 1 M1 (d0 ++ retryPass segments tt gen 1 m0) =
            (d0 ++ retryPass segments tt gen 1 m0 ++ retryPass segments tt gen 2 M1,
             (List.range segments.length).filter
               (fun idx => !(gen 0 idx || gen 1 idx || gen 2 idx))) := by
          rw [retryLoop_step segments tt gen 2 1 M1 _ hM1e (by omega), hmiss2, hM2,
            retryLoop_stop segments tt gen 2 2 _ _ (Or.inr (by omega))]
        constructor
        · intro idx hidx
          rw [hrec, hstep1, hstep2]
          simp only [List.map_append, List.mem_append, hnewly1, hnewly2]
          simp only [hmem0, List.mem_filter, hm0, hM1def, List.mem_range]
          cases hg0 : gen 0 idx <;> cases hg1 : gen 1 idx <;> cases hg2 : gen 2 idx <;>
            simp [hidx, hg0, hg1, hg2]
        · rw [hrec, hstep1, hstep2]
      · -- everything was regenerated in pass 1: the loop stops, nothing missing
        have hM1nil : M1 = [] := not_not.mp hM1e
        have hforce : ∀ idx, idx < segments.length →
            (gen 0 idx = true ∨ gen 1 idx = true) := by
          intro idx hidx
          by_contra hcon
          push_neg at hcon
          have hmem : idx ∈ M1 := by
            rw [hM1def, List.mem_filter]
            refine ⟨List.mem_range.mpr hidx, ?_⟩
            obtain ⟨hc0, hc1⟩ := hcon
            simp only [ne_eq, Bool.not_eq_true] at hc0 hc1
            simp [hc0, hc1]
          rw [hM1nil] at hmem
          simp at hmem
        have hstop : retryLoop segments tt gen 2 1 M1 (d0 ++ retryPass segments tt gen 1 m0) =
            (d0 ++ retryPass segments tt gen 1 m0, M1) :=
          retryLoop_stop segments tt gen 2 1 _ _ (Or.inl hM1nil)
        constructor
        · intro idx hidx
          rw [hrec, hstep1, hstop]
          simp only [List.map_append, List.mem_append, hnewly1]
          simp only [hmem0, List.mem_filter, hm0, List.mem_range]
          rcases hforce idx hidx with hg | hg
          · cases hg1 : gen 1 idx <;> simp [hidx, hg, hg1]
          · cases hg0 : gen 0 idx <;> simp [hidx, hg, hg0]
        · rw [hrec, hstep1, hstop, hM1nil]
          symm
          rw [List.filter_eq_nil_iff]
          intro idx hidx
          rcases hforce idx (List.mem_range.mp hidx) with hg | hg <;> simp [hg]
    · -- count mismatch with nothing missing: impossible when expected = len(segments)
      exfalso
      have hm0nil : m0 = [] := not_not.mp hm0e
      rw [hm0] at hm0nil
      have hall : ∀ k, k < segments.length → gen 0 k = true := by
        intro k hk
        by_contra hcon
        have hmem : k ∈ (List.range segments.length).filter (fun idx => !(gen 0 idx)) := by
          rw [List.mem_filter]
          rw [Bool.not_eq_true] at hcon
          exact ⟨List.mem_range.mpr hk, by simp [hcon]⟩
        rw [hm0nil] at hmem
        simp at hmem
      have hlen' : d0.length = segments.length := by
        rw [hd0]
        exact (firstPass_length_eq_iff tt (gen 0) segments 0).mpr
          (fun k hk => by simpa using hall k hk)
      rw [h] at hlen
      exact hlen hlen'
  · -- the produced count matches: every first-pass generation succeeded
    have hlen' : d0.length = segments.length := by
      rw [← h]
      exact not_not.mp hlen
    have hall : ∀ k, k < segments.length → gen 0 k = true := by
      intro k hk
      have := (firstPass_length_eq_iff tt (gen 0) segments 0).mp (by rw [← hd0]; exact hlen') k hk
      simpa using this
    have hrec : reconcile segments tt gen = (d0, []) := by
      rw [reconcile]
      rw [← hd0, if_neg hlen]
    constructor
    · intro idx hidx
      rw [hrec]
      simp [hmem0, hidx, hall idx hidx]
    · rw [hrec]
      symm
      rw [List.filter_eq_nil_iff]
      intro idx hidx
      simp [hall idx (List.mem_range.mp hidx)]

theorem runSynthesis_allFail :
    runSynthesis exSegs exTexts genFail =
      ⟨none, 0, "t", [], [], some [0]⟩ := by
  have hL : retryLoop exSegs exTexts genFail 2 0 [0] [] = ([], [0]) := by
    rw [retryLoop_step exSegs exTexts genFail 2 0 [0] [] (by decide) (by omega)]
    show retryLoop exSegs exTexts genFail 2 1 [0] [] = ([], [0])
    rw [retryLoop_step exSegs exTexts genFail 2 1 [0] [] (by decide) (by omega)]
    show retryLoop exSegs exTexts genFail 2 2 [0] [] = ([], [0])
    rw [retryLoop_stop exSegs exTexts genFail 2 2 [0] [] (Or.inr (by omega))]
  have hrec : reconcile exSegs exTexts genFail = ([], [0]) := by
    rw [reconcile]
    have e1 : firstPass exTexts (genFail 0) 0 exSegs = [] := rfl
    rw [e1]
    rw [if_pos (by decide : ([] : List SegData).length ≠ expectedCount exSegs exTexts)]
    have e2 : missingOf (expectedCount exSegs exTexts) ([] : List SegData) = [0] := rfl
    rw [e2, if_pos (by decide : ([0] : List ℕ) ≠ []), hL]
  rw [runSynthesis, hrec]
  decide

end TTS

end TVT


/-- Claim C1: for every input list of segments and every pattern of batch
successes and failures of the external translation service (including every
batch raising), `translate_segments` returns a list of the same length:
no segment is ever dropped by translation. -/
theorem translate_segments_length_invariant
    (outcomes : ℕ → TVT.Translator.BatchOutcome) (segments : List TVT.SubtitleSegment) :
    (TVT.Translator.translate_segments outcomes segments).length = segments.length :=
  TVT.Translator.translateLoop_length outcomes segments.length 0 segments (Nat.le_refl _)

/-- Claim C7: every output segment of `translate_segments` carries the
`start_time`, `end_time` and `confidence` of the input segment at the same
position — only the text may change — for every pattern of batch outcomes,
i.e. on the translated path and on the fallback path alike. -/
theorem translate_segments_preserves_timing
    (outcomes : ℕ → TVT.Translator.BatchOutcome) (segments : List TVT.SubtitleSegment) :
    List.Forall₂ TVT.Translator.SameTiming segments
      (TVT.Translator.translate_segments outcomes segments) :=
  TVT.Translator.translateLoop_sameTiming outcomes segments.length 0 segments (Nat.le_refl _)

/-- Claim C6: (i) within a successfully translated batch, position `i` gets
the text of the `[i]`-prefixed response line when one parsed, and keeps its
original text otherwise (`translations.get(idx, segment.text)`);
(ii) a batch whose translation call raises falls back entirely to the
original segments and processing continues with the subsequent batches;
(iii) concretely, for 3 segments at [0,2), [2,4), [4,6) and a response
carrying lines only for indices 0 and 2, the output keeps all 3 segments
and index 1 carries the source text. -/
theorem batch_parse_fallback_law :
    (∀ (t : String) (batch : List TVT.SubtitleSegment) (i : ℕ),
      (TVT.Translator.translateBatch batch (TVT.Translator.BatchOutcome.response t))[i]? =
        (batch[i]?).map (fun seg =>
          ⟨seg.start_time, seg.end_time,
            (TVT.Translator.dictGet (TVT.Translator.parseTranslations t) (i : ℤ)).getD seg.text,
            seg.confidence⟩)) ∧
    (∀ (outcomes : ℕ → TVT.Translator.BatchOutcome) (b : ℕ) (l : List TVT.SubtitleSegment),
      outcomes b = TVT.Translator.BatchOutcome.raise → l ≠ [] →
      TVT.Translator.translateLoop outcomes b l =
        l.take TVT.Translator.batch_size ++
          TVT.Translator.translateLoop outcomes (b + 1) (l.drop TVT.Translator.batch_size)) ∧
    (TVT.Translator.translate_segments
        (fun _ => TVT.Translator.BatchOutcome.response "[0] T0\n[2] T2")
        [⟨0, 2, "hello zero", none⟩, ⟨2, 4, "hello one", none⟩, ⟨4, 6, "hello two", none⟩] =
      [⟨0, 2, "T0", none⟩, ⟨2, 4, "hello one", none⟩, ⟨4, 6, "T2", none⟩]) := by
  refine ⟨?_, ?_, ?_⟩
  · intro t batch i
    simp only [TVT.Translator.translateBatch]
    have h := TVT.Translator.translateBatch_response_getElem t batch 0 i
    simpa using h
  · intro outcomes b l ho hl
    rw [TVT.Translator.translateLoop_cons outcomes b l hl, ho,
      TVT.Translator.translateBatch_raise]
  · rw [TVT.Translator.translate_segments,
      TVT.Translator.translateLoop_cons _ _ _ (by simp)]
    have hd : List.drop TVT.Translator.batch_size
        ([⟨0, 2, "hello zero", none⟩, ⟨2, 4, "hello one", none⟩,
          ⟨4, 6, "hello two", none⟩] : List TVT.SubtitleSegment) = [] := rfl
    rw [hd, TVT.Translator.translateLoop_nil]
    decide

/-- Claim C2: in the timing retry loop of `generate_speech_with_timing`,
after a successful generation on attempt `a+1` the clip is accepted exactly
when its measured duration is at most 110% of the segment window; otherwise
(when another attempt remains) the clip is discarded and the loop re-runs
with speed factor `min 2 (previous * duration / window)`. -/
theorem timing_retry_accept_or_speedup
    (gen : ℕ → ℚ → Option TVT.TTSPrompts.ProbeOutcome) (segd : ℚ) (m a : ℕ) (s : ℚ)
    (probe : TVT.TTSPrompts.ProbeOutcome)
    (ha : a < m) (hg : gen (a + 1) s = some probe) :
    (TVT.TTSPrompts.get_audio_duration probe ≤ segd * (11 / 10) →
      (TVT.TTSPrompts.timingGo gen segd m a s).1 =
        some (TVT.TTSPrompts.get_audio_duration probe)) ∧
    (segd * (11 / 10) < TVT.TTSPrompts.get_audio_duration probe → a + 1 < m →
      (TVT.TTSPrompts.timingGo gen segd m a s).1 =
        (TVT.TTSPrompts.timingGo gen segd m (a + 1)
          (min 2 (s * (TVT.TTSPrompts.get_audio_duration probe / segd)))).1) := by
  constructor
  · intro hd
    rw [TVT.TTSPrompts.timingGo.eq_def, dif_pos ha, hg]
    simp only []
    rw [if_neg (not_lt.mpr hd)]
  · intro hd hnext
    rw [TVT.TTSPrompts.timingGo.eq_def, dif_pos ha, hg]
    simp only []
    rw [if_pos hd, if_pos hnext]

/-- Witness for C2: a clip of duration 1 for a window of 2 is within 110%
and accepted on the first attempt. -/
theorem timing_retry_accept_or_speedup_witness :
    (0 < 3) ∧
    (TVT.TTSPrompts.timingGo
        (fun _ _ => some (TVT.TTSPrompts.ProbeOutcome.ok 1)) 2 3 0 1).1 = some 1 :=
  ⟨by norm_num,
    (timing_retry_accept_or_speedup
        (fun _ _ => some (TVT.TTSPrompts.ProbeOutcome.ok 1)) 2 3 0 1
        (TVT.TTSPrompts.ProbeOutcome.ok 1) (by norm_num) rfl).1
      (by norm_num [TVT.TTSPrompts.get_audio_duration])⟩

/-- Claim C3: the speed-retry loop performs at most `max_attempts`
(source default 3) generation attempts — it is a total function, so it
always terminates — and when generation succeeds on the final attempt the
produced clip is returned with its duration even if it still exceeds 110%
of the window. -/
theorem timing_retry_bounded_last_clip
    (gen : ℕ → ℚ → Option TVT.TTSPrompts.ProbeOutcome) (segd : ℚ) (m a : ℕ) (s : ℚ) :
    ((TVT.TTSPrompts.timingGo gen segd m a s).2 ≤ m - a) ∧
    (∀ probe, a + 1 = m → gen (a + 1) s = some probe →
      (TVT.TTSPrompts.timingGo gen segd m a s).1 =
        some (TVT.TTSPrompts.get_audio_duration probe)) ∧
    ((TVT.TTSPrompts.generate_speech_with_timing gen segd 3).2 ≤ 3) := by
  refine ⟨TVT.TTSPrompts.timingGo_attempts_le gen segd (m - a) m a s (Nat.le_refl _),
    ?_, ?_⟩
  · intro probe hlast hg
    have ha : a < m := by omega
    rw [TVT.TTSPrompts.timingGo.eq_def, dif_pos ha, hg]
    simp only []
    by_cases hd : TVT.TTSPrompts.get_audio_duration probe > segd * (11 / 10)
    · rw [if_pos hd, if_neg (by omega : ¬ a + 1 < m)]
    · rw [if_neg hd]
  · exact TVT.TTSPrompts.timingGo_attempts_le gen segd 3 3 0 1 (Nat.le_refl _)

/-- Witness for C3: with a budget of 1 attempt, a 5-second clip for a
1-second window (500% of the window) is still returned on the final
attempt. -/
theorem timing_retry_bounded_last_clip_witness :
    (0 + 1 = 1) ∧
    (TVT.TTSPrompts.timingGo
        (fun _ _ => some (TVT.TTSPrompts.ProbeOutcome.ok 5)) 1 1 0 1).1 = some 5 :=
  ⟨rfl,
    (timing_retry_bounded_last_clip
        (fun _ _ => some (TVT.TTSPrompts.ProbeOutcome.ok 5)) 1 1 0 1).2.1
      (TVT.TTSPrompts.ProbeOutcome.ok 5) rfl rfl⟩

/-- Claim C10: `get_audio_duration` is total — on a nonzero `ffprobe` exit
code or a raised exception it returns `0.0`, on success the parsed
duration — and consequently in the timing retry loop a clip whose duration
cannot be measured counts as `0.0 ≤ 110%` of any positive window and is
accepted on the first successful generation. -/
theorem get_audio_duration_total_fallback :
    (TVT.TTSPrompts.get_audio_duration TVT.TTSPrompts.ProbeOutcome.errExit = 0) ∧
    (TVT.TTSPrompts.get_audio_duration TVT.TTSPrompts.ProbeOutcome.exn = 0) ∧
    (∀ d : ℚ, TVT.TTSPrompts.get_audio_duration (TVT.TTSPrompts.ProbeOutcome.ok d) = d) ∧
    (∀ (gen : ℕ → ℚ → Option TVT.TTSPrompts.ProbeOutcome) (segd s : ℚ) (m a : ℕ)
        (probe : TVT.TTSPrompts.ProbeOutcome),
      0 < segd → a < m → gen (a + 1) s = some probe →
      TVT.TTSPrompts.get_audio_duration probe = 0 →
      (TVT.TTSPrompts.timingGo gen segd m a s).1 = some 0) := by
  refine ⟨rfl, rfl, fun d => rfl, ?_⟩
  intro gen segd s m a probe hsegd hm hg hd0
  rw [TVT.TTSPrompts.timingGo.eq_def, dif_pos hm, hg]
  simp only [hd0]
  rw [if_neg]
  exact not_lt.mpr (by positivity)

/-- Witness for C10: a clip whose `ffprobe` measurement raises is measured
as `0.0` and accepted immediately for a 1-second window. -/
theorem get_audio_duration_total_fallback_witness :
    ((0 : ℚ) < 1) ∧
    (TVT.TTSPrompts.timingGo
        (fun _ _ => some TVT.TTSPrompts.ProbeOutcome.exn) 1 3 0 1).1 = some 0 :=
  ⟨by norm_num,
    get_audio_duration_total_fallback.2.2.2
      (fun _ _ => some TVT.TTSPrompts.ProbeOutcome.exn) 1 1 3 0
      TVT.TTSPrompts.ProbeOutcome.exn (by norm_num) (by norm_num) rfl rfl⟩

/-- Claim C8: when `transcribe_audio` splits a long audio into 300-second
chunks (the source default), the output is exactly the concatenation of the
per-chunk ASR segments with chunk `i`'s local timestamps shifted by
`i * 300` in both `start_time` and `end_time`; and a 700-second audio is
split into 3 chunks (indices 0, 1, 2, offsets 0, 300, 600). -/
theorem chunked_transcription_offsets
    (file_size_mb total_duration : ℚ) (asr : ℕ → TVT.Transcriber.ChunkTranscription) :
    ((TVT.Transcriber.transcribe_audio file_size_mb total_duration asr).segments =
      ((List.range (if file_size_mb > 20
          then TVT.Transcriber.split_audio_chunks total_duration 300 else 1)).map
        (fun i => (asr i).segments.map (fun raw =>
          (⟨raw.start + (i : ℚ) * 300, raw.stop + (i : ℚ) * 300,
            String.mk (TVT.Translator.stripChars raw.text.toList),
            raw.confidence⟩ : TVT.SubtitleSegment)))).flatten) ∧
    TVT.Transcriber.split_audio_chunks 700 300 = 3 := by
  constructor
  · rw [TVT.Transcriber.transcribe_audio]
    simp only [TVT.Transcriber.transcribeChunksLoop_segments, TVT.Transcriber.offsetChunk]
  · rw [TVT.Transcriber.split_audio_chunks, if_neg (by norm_num), Rat.floor_def']
    norm_num
    rfl

/-- Claim C9: with the external mixing process succeeding,
`merge_audio_segments` raises exactly when no input segment carries an
existing audio file; with at least one usable clip it returns the output
path together with a timeline bound `D` that is the maximum `end` value
over all input segments, i.e. the combined timeline spans `[0, max end)`. -/
theorem merge_audio_segments_error_iff_no_clips
    (segments : List TVT.Composer.MergeSeg) (output_path : String) :
    ((∃ msg, TVT.Composer.merge_audio_segments true segments output_path =
        TVT.Composer.MergeResult.error msg) ↔
      segments.filter (fun s => s.has_audio) = []) ∧
    (segments.filter (fun s => s.has_audio) ≠ [] →
      ∃ D, TVT.Composer.merge_audio_segments true segments output_path =
          TVT.Composer.MergeResult.ok output_path D ∧
        (∀ s ∈ segments, s.stop ≤ D) ∧ (∃ s ∈ segments, s.stop = D)) := by
  by_cases hf : segments.filter (fun s => s.has_audio) = []
  · constructor
    · constructor
      · intro _
        exact hf
      · intro _
        exact ⟨"no audio files found",
          by rw [TVT.Composer.merge_audio_segments]; simp [hf]⟩
    · intro hcon
      exact absurd hf hcon
  · rw [TVT.Composer.merge_audio_segments]
    simp only [if_neg hf, if_pos rfl]
    have hne : segments ≠ [] := by
      intro h
      rw [h] at hf
      exact hf rfl
    have hmapne : segments.map (fun s => s.stop) ≠ [] := by
      simpa using hne
    obtain ⟨m, hm⟩ : ∃ m, (segments.map (fun s => s.stop)).max? = some m := by
      cases hmx : (segments.map (fun s => s.stop)).max? with
      | none => exact absurd (List.max?_eq_none_iff.mp hmx) hmapne
      | some m => exact ⟨m, rfl⟩
    have inst : Std.Antisymm (α := ℚ) (· ≤ ·) := ⟨@le_antisymm ℚ _⟩
    have hm' := hm
    rw [List.max?_eq_some_iff] at hm'
    · obtain ⟨hmem, hle⟩ := hm'
      constructor
      · constructor
        · rintro ⟨msg, hmsg⟩
          rw [hm] at hmsg
          simp at hmsg
        · intro h
          exact absurd h hf
      · intro _
        refine ⟨m, by rw [hm]; rfl, ?_, ?_⟩
        · intro s hs
          exact hle _ (List.mem_map.mpr ⟨s, hs, rfl⟩)
        · obtain ⟨s, hs, hsm⟩ := List.mem_map.mp hmem
          exact ⟨s, hs, hsm⟩
    all_goals simp [le_total]

/-- Witness for C9: a single usable clip ending at 5 seconds yields a
timeline bound of 5. -/
theorem merge_audio_segments_error_iff_no_clips_witness :
    (([⟨true, 0, 5⟩] : List TVT.Composer.MergeSeg).filter (fun s => s.has_audio) ≠ []) ∧
    (∃ D, TVT.Composer.merge_audio_segments true [⟨true, 0, 5⟩] "out.wav" =
        TVT.Composer.MergeResult.ok "out.wav" D ∧
      (∀ s ∈ ([⟨true, 0, 5⟩] : List TVT.Composer.MergeSeg), s.stop ≤ D) ∧
      (∃ s ∈ ([⟨true, 0, 5⟩] : List TVT.Composer.MergeSeg), s.stop = D)) :=
  ⟨by decide,
    (merge_audio_segments_error_iff_no_clips [⟨true, 0, 5⟩] "out.wav").2 (by decide)⟩

/-- Claim C4 (amended): the indices present in the synthesizer's result are
a subset of the input indices; with `expected_count` equal to the number of
segments, an index is present iff its generation succeeded on the first
pass or on one of the 2 retry passes; indices still missing after all
passes are dropped, and the dropped indices are enumerated in the final
console warning — the result's metadata (`audio_files`) lists only the
produced files. -/
theorem synthesizer_indices_subset_retry_report
    (segments : List TVT.SubtitleSegment) (tt : Option (List String))
    (gen : ℕ → ℕ → Bool) :
    (∀ j ∈ (TVT.TTS.runSynthesis segments tt gen).audio_files, j < segments.length) ∧
    (TVT.TTS.expectedCount segments tt = segments.length →
      (∀ idx, idx < segments.length →
        (idx ∈ (TVT.TTS.runSynthesis segments tt gen).audio_files ↔
          (gen 0 idx || gen 1 idx || gen 2 idx) = true)) ∧
      (TVT.TTS.runSynthesis segments tt gen).missing_report =
        (if ((List.range segments.length).filter
            (fun idx => !(gen 0 idx || gen 1 idx || gen 2 idx))) ≠ []
          then some ((List.range segments.length).filter
            (fun idx => !(gen 0 idx || gen 1 idx || gen 2 idx)))
          else none)) := by
  constructor
  · have hsub := TVT.TTS.reconcile_idx_lt segments tt gen
    simpa [TVT.TTS.runSynthesis] using hsub
  · intro h
    obtain ⟨h1, h2⟩ := TVT.TTS.reconcile_char segments tt gen h
    constructor
    · intro idx hidx
      have := h1 idx hidx
      simpa [TVT.TTS.runSynthesis] using this
    · simp only [TVT.TTS.runSynthesis]
      rw [h2]

/-- Witness for C4: with two segments, no translated-texts override and a
generator succeeding only on the first retry pass, index 0 is present in
the result and nothing is reported missing. -/
theorem synthesizer_indices_subset_retry_report_witness :
    (TVT.TTS.expectedCount [⟨0, 2, "a", none⟩, ⟨2, 4, "b", none⟩] none = 2) ∧
    ((0 ∈ (TVT.TTS.runSynthesis [⟨0, 2, "a", none⟩, ⟨2, 4, "b", none⟩] none
        TVT.TTS.genRetry).audio_files ↔
      (TVT.TTS.genRetry 0 0 || TVT.TTS.genRetry 1 0 || TVT.TTS.genRetry 2 0) = true)) :=
  ⟨rfl,
    ((synthesizer_indices_subset_retry_report [⟨0, 2, "a", none⟩, ⟨2, 4, "b", none⟩]
        none TVT.TTS.genRetry).2 rfl).1 0 (by norm_num)⟩

/-- Counterexample for C4 as stated: with one segment whose generation
fails on every pass, index 0 is dropped; it is enumerated in the final
console warning (`missing_report = some [0]`), but the returned result
itself carries no mention of it — its metadata `audio_files` list (and its
`segments` list) are empty, so the dropped index is NOT enumerated in the
result's metadata. -/
theorem synthesizer_metadata_counterexample :
    (TVT.TTS.runSynthesis TVT.TTS.exSegs TVT.TTS.exTexts TVT.TTS.genFail).missing_report
        = some [0] ∧
    (TVT.TTS.runSynthesis TVT.TTS.exSegs TVT.TTS.exTexts TVT.TTS.genFail).audio_files = [] ∧
    (TVT.TTS.runSynthesis TVT.TTS.exSegs TVT.TTS.exTexts TVT.TTS.genFail).segments = [] ∧
    ¬ 0 ∈ (TVT.TTS.runSynthesis TVT.TTS.exSegs TVT.TTS.exTexts
        TVT.TTS.genFail).audio_files := by
  rw [TVT.TTS.runSynthesis_allFail]
  refine ⟨rfl, rfl, rfl, by simp⟩

/-- Claim C5 (amended): the speech-synthesis operation never raises — it
does not fail on partial segment loss, and it does not fail on total loss
either: it always returns a normal `TTSResult`, and the main audio file is
the `empty.wav` placeholder exactly when the produced audio-file list is
empty. -/
theorem synthesis_never_raises (segments : List TVT.SubtitleSegment)
    (tt : Option (List String)) (gen : ℕ → ℕ → Bool) :
    (∃ r, TVT.TTS.generate_speech_for_segments segments tt gen = Except.ok r) ∧
    ((TVT.TTS.runSynthesis segments tt gen).audio_file = none ↔
      (TVT.TTS.runSynthesis segments tt gen).audio_files = []) := by
  refine ⟨⟨TVT.TTS.runSynthesis segments tt gen, rfl⟩, ?_⟩
  simp only [TVT.TTS.runSynthesis]
  exact List.head?_eq_none_iff

/-- Counterexample for C5 as stated: when zero segments can be produced
(every pass of every segment fails), the operation does not raise a fatal
error — it returns a normal result with the placeholder audio file, an
empty segments list and empty metadata. -/
theorem synthesis_zero_output_returns_ok :
    TVT.TTS.generate_speech_for_segments TVT.TTS.exSegs TVT.TTS.exTexts TVT.TTS.genFail =
      Except.ok ⟨none, 0, "t", [], [], some [0]⟩ := by
  rw [TVT.TTS.generate_speech_for_segments, TVT.TTS.runSynthesis_allFail]

/-- Witness for C6: the fallback law applied at a concrete raising batch. -/
theorem batch_parse_fallback_law_witness :
    TVT.Translator.translateLoop (fun _ => TVT.Translator.BatchOutcome.raise) 0
        [⟨0, 2, "hi", none⟩] =
      ([⟨0, 2, "hi", none⟩] : List TVT.SubtitleSegment).take TVT.Translator.batch_size ++
        TVT.Translator.translateLoop (fun _ => TVT.Translator.BatchOutcome.raise) 1
          (([⟨0, 2, "hi", none⟩] : List TVT.SubtitleSegment).drop TVT.Translator.batch_size) :=
  batch_parse_fallback_law.2.1 (fun _ => TVT.Translator.BatchOutcome.raise) 0
    [⟨0, 2, "hi", none⟩] rfl (by simp)
